import Mathlib

/-!
Verification of the WESscDRS core against its specification.

The development shallowly embeds the two statistically non-trivial parts of
the repository:

* `src/bin/stp7_scDRS_result_evaluation.py` — the two-point logarithmic
  threshold model (`log_threshold`) and the significance-evaluation loop of
  `__main__` (per-record rounding, percentage, threshold, significance flag
  and the construction of the `final_results` "significant subset");
* `src/bin/scdrs_.py` (`munge_gs`) — the gene-set builder: duplicate-gene
  check, per-trait missing-value drop, FDR/FWER/top-`n_max` selection count,
  clamping to `[n_min, n_max]`, selection of the smallest p-values and the
  zscore/uniform weight assignment.

Numeric idealization: Python floats are modelled by `ℚ` where the source
computes with parsed data (record fields, p-values, rounding) and by `ℝ`
where it computes with the symbolically solved curve (sympy expressions,
`np.log10`).  `round(x, 5)` is modelled as decimal round-half-to-even, the
tie rule CPython uses.  Python computations that raise (`ZeroDivisionError`
on `n_fdr/n_cell` with `n_cell = 0`; the sympy `zoo` comparison error when
`log10(n_cell) = 0`) are modelled with `Option`, `none` meaning the loop
dies with an exception.
-/

namespace WESscDRS

/-! ## Decimal rounding (Python `round(x, 5)` on the dig = 5 setting) -/

/-- Round to the nearest integer, ties to even — the rounding CPython's
`round` applies (here over `ℚ`, the decimal idealization of the float). -/
def roundHalfEven (y : ℚ) : ℤ :=
  let f := ⌊y⌋
  let r := y - (f : ℚ)
  if r < 1 / 2 then f
  else if 1 / 2 < r then f + 1
  else if f % 2 = 0 then f else f + 1

/-- Python `round(x, 5)`: round to 5 decimal places (the loop's `dig = 5`). -/
def round5 (x : ℚ) : ℚ :=
  (roundHalfEven (x * 100000) : ℚ) / 100000

/-- Rounding moves the value by at most a half unit. -/
lemma roundHalfEven_dist (y : ℚ) : |(roundHalfEven y : ℚ) - y| ≤ 1 / 2 := by
  have hf0 : (0 : ℚ) ≤ y - (⌊y⌋ : ℚ) := by
    have := Int.floor_le y
    linarith
  have hf1 : y - (⌊y⌋ : ℚ) < 1 := by
    have := Int.lt_floor_add_one y
    linarith
  unfold roundHalfEven
  by_cases h1 : y - (⌊y⌋ : ℚ) < 1 / 2
  · simp only [h1, if_true]
    rw [abs_le]
    constructor <;> linarith
  · by_cases h2 : 1 / 2 < y - (⌊y⌋ : ℚ)
    · simp only [h1, h2, if_false, if_true]
      rw [abs_le]
      push_cast
      constructor <;> linarith
    · have hr : y - (⌊y⌋ : ℚ) = 1 / 2 := le_antisymm (not_lt.1 h2) (not_lt.1 h1)
      by_cases h3 : ⌊y⌋ % 2 = 0 <;> simp only [h1, h2, h3, if_false, if_true] <;>
        rw [abs_le] <;> push_cast <;> constructor <;> linarith

/-- Rounding at 5 decimals moves the value by at most `5·10⁻⁶`. -/
lemma round5_dist (x : ℚ) : |round5 x - x| ≤ 1 / 200000 := by
  have h := roundHalfEven_dist (x * 100000)
  unfold round5
  have : (roundHalfEven (x * 100000) : ℚ) / 100000 - x
      = ((roundHalfEven (x * 100000) : ℚ) - x * 100000) / 100000 := by ring
  rw [this, abs_div]
  rw [show |(100000 : ℚ)| = 100000 by norm_num]
  rw [div_le_iff₀ (by norm_num : (0:ℚ) < 100000)]
  calc |(roundHalfEven (x * 100000) : ℚ) - x * 100000| ≤ 1 / 2 := h
    _ = 1 / 200000 * 100000 := by norm_num

/-! ## The two-point threshold model (`log_threshold`, stp7 lines 44–84)

`log_threshold` sets up `a + b/log10(150) = 5` and
`a + b/log10(150·1000) = 5/1000` and has sympy solve the 2×2 linear system
for `(a, b)` exactly.  `solve2` is that closed-form solution. -/

/-- The exact solution `(a, b)` of `a + b/p = u`, `a + b/q = v`, as sympy's
`solve` produces it for the two anchor equations. -/
noncomputable def solve2 (p q u v : ℝ) : ℝ × ℝ :=
  let b := (u - v) * p * q / (q - p)
  (u - b / p, b)

/-- The function `log_threshold()`: the fitted pair `(a, b)` for
`min_cell_count = 150`, `up_threshold = 5`, `factor = 1000`. -/
noncomputable def log_threshold : ℝ × ℝ :=
  let min_cell_count : ℝ := 150
  let up_threshold : ℝ := 5
  let factor : ℝ := 1000
  let max_cell_count : ℝ := min_cell_count * factor
  let low_threshold : ℝ := up_threshold / factor
  solve2 (Real.logb 10 min_cell_count) (Real.logb 10 max_cell_count)
    up_threshold low_threshold

/-- The fitted intercept `a`. -/
noncomputable def a_fit : ℝ := log_threshold.1

/-- The fitted slope `b`. -/
noncomputable def b_fit : ℝ := log_threshold.2

/-- The threshold expression of stp7 line 154:
`max(a + (b/np.log10(n_cell)), 0.005)`. -/
noncomputable def thresholdEval (a b n : ℝ) : ℝ :=
  max (a + b / Real.logb 10 n) 0.005

/-! ### Facts about the fitted curve -/

lemma logb_150_pos : 0 < Real.logb 10 150 :=
  Real.logb_pos (by norm_num) (by norm_num)

lemma logb_150_gt_two : 2 < Real.logb 10 150 := by
  rw [Real.lt_logb_iff_rpow_lt (by norm_num) (by norm_num)]
  rw [show (2 : ℝ) = ((2 : ℕ) : ℝ) by norm_num, Real.rpow_natCast]
  norm_num

lemma logb_150000 : Real.logb 10 150000 = Real.logb 10 150 + 3 := by
  rw [show (150000 : ℝ) = 150 * 10 ^ (3 : ℕ) by norm_num,
    Real.logb_mul (by norm_num) (by positivity), Real.logb_pow,
    Real.logb_self_eq_one (by norm_num)]
  ring

lemma solve2_fst (p q u v : ℝ) :
    (solve2 p q u v).1 = u - (u - v) * p * q / (q - p) / p := rfl

lemma solve2_snd (p q u v : ℝ) :
    (solve2 p q u v).2 = (u - v) * p * q / (q - p) := rfl

lemma a_fit_def :
    a_fit = 5 - (5 - 5 / 1000) * Real.logb 10 150 * Real.logb 10 (150 * 1000)
      / (Real.logb 10 (150 * 1000) - Real.logb 10 150) / Real.logb 10 150 := by
  simp only [a_fit, log_threshold, solve2_fst]

lemma b_fit_def :
    b_fit = (5 - 5 / 1000) * Real.logb 10 150 * Real.logb 10 (150 * 1000)
      / (Real.logb 10 (150 * 1000) - Real.logb 10 150) := by
  simp only [b_fit, log_threshold, solve2_snd]

lemma b_fit_eq :
    b_fit = (999 / 600) * Real.logb 10 150 * (Real.logb 10 150 + 3) := by
  rw [b_fit_def, show (150 : ℝ) * 1000 = 150000 by norm_num, logb_150000]
  field_simp
  ring

lemma b_fit_pos : 0 < b_fit := by
  rw [b_fit_eq]
  have h := logb_150_pos
  positivity

lemma a_fit_eq : a_fit = 5 - (999 / 600) * (Real.logb 10 150 + 3) := by
  have hL : Real.logb 10 150 ≠ 0 := ne_of_gt logb_150_pos
  rw [a_fit_def, show (150 : ℝ) * 1000 = 150000 by norm_num, logb_150000]
  field_simp
  ring

lemma a_fit_neg : a_fit < 0 := by
  rw [a_fit_eq]
  have h := logb_150_gt_two
  nlinarith

/-- First anchor: the curve passes through `(150, 5)`. -/
lemma anchor_min : a_fit + b_fit / Real.logb 10 150 = 5 := by
  have hL : Real.logb 10 150 ≠ 0 := ne_of_gt logb_150_pos
  rw [a_fit_eq, b_fit_eq]
  field_simp
  ring

/-- Second anchor: the curve passes through `(150000, 5/1000)`. -/
lemma anchor_max : a_fit + b_fit / Real.logb 10 150000 = 5 / 1000 := by
  have hL : Real.logb 10 150 ≠ 0 := ne_of_gt logb_150_pos
  have hQ : Real.logb 10 150 + 3 ≠ 0 := by
    have := logb_150_pos
    linarith
  rw [a_fit_eq, b_fit_eq, logb_150000]
  field_simp
  ring

lemma thresholdEval_at_150 : thresholdEval a_fit b_fit 150 = 5 := by
  unfold thresholdEval
  rw [anchor_min]
  norm_num

/-- The fitted curve is non-increasing on `(1, ∞)`. -/
lemma thresholdEval_anti {x y : ℝ} (hx : 1 < x) (hxy : x ≤ y) :
    thresholdEval a_fit b_fit y ≤ thresholdEval a_fit b_fit x := by
  unfold thresholdEval
  have hlx : 0 < Real.logb 10 x := Real.logb_pos (by norm_num) hx
  have hly : Real.logb 10 x ≤ Real.logb 10 y :=
    Real.logb_le_logb_of_le (by norm_num) (by linarith) hxy
  have hb := b_fit_pos
  have hdiv : b_fit / Real.logb 10 y ≤ b_fit / Real.logb 10 x := by
    gcongr
  exact max_le_max (by linarith) le_rfl

/-! ## The significance-evaluation loop (stp7 `__main__`, lines 128–189)

One row of a `{trait}.scdrs_group.cell_ontology_class` file, with the
fields the loop reads (after `floatTOnumber`, all parsed as floats). -/

structure GroupAssociationRecord where
  tissue : String
  trait : String
  cell_group : String
  n_cell : ℚ
  assoc_mcp : ℚ
  hetero_mcp : ℚ
  n_fdr : ℚ

/-- The derived columns `clmn.iloc[d, 0..4]` for one record:
rounded `assoc_mcp`, rounded `hetero_mcp`, the percentage of associated
cells, the threshold (`none` when the else-branch at line 159 leaves the
`clmn` cell as its initial NaN) and the 0/1 significance flag. -/
structure EvaluatedGroupRecord where
  assoc : ℚ
  hetero : ℚ
  percent : ℚ
  threshold : Option ℝ
  significancy : ℚ

/-- Line 151–152: `round(float(n_fdr_0.05)/float(n_cell), dig)*100`. -/
def percentOf (r : GroupAssociationRecord) : ℚ :=
  round5 (r.n_fdr / r.n_cell) * 100

/-- The membership test of lines 162–164: a record goes into
`final_results` iff `n_cell >= 150`, `assoc_mcp <= 0.05` and
`n_fdr_0.05 > 0` (on the raw parsed values, not the rounded columns). -/
def memberCond (r : GroupAssociationRecord) : Bool :=
  decide (150 ≤ r.n_cell) && decide (r.assoc_mcp ≤ 0.05) && decide (0 < r.n_fdr)

/-- Line 154, `max(a+(b/np.log10(float(n_cell))),0.005)`, as a fallible
computation.  At `n_cell = 1`, `np.log10` is `0`, `b/0` is sympy's `zoo`
and the `max` comparison raises — modelled as `none`.  At `n_cell = 0`,
`np.log10` is `-inf`, `b / (-inf)` is `0`, and the expression evaluates to
`max(a, 0.005)`; Lean's `logb 10 0 = 0` and `b/0 = 0` conventions give the
same value, so that case stays in the `some` branch. -/
noncomputable def evaluateThreshold (a b : ℝ) (n : ℚ) : Option ℝ :=
  if n = 1 then none
  else some (max (a + b / Real.logb 10 (n : ℝ)) 0.005)

/-- Lines 149–160 for one record `d`.  `none` models the loop dying with an
exception: `ZeroDivisionError` at line 152 when `n_cell = 0`, or the sympy
comparison error inside line 154 when `n_fdr_0.05 > 0` and `n_cell = 1`. -/
noncomputable def processRecord (a b : ℝ) (r : GroupAssociationRecord) :
    Option EvaluatedGroupRecord :=
  if r.n_cell = 0 then none
  else if 0 < r.n_fdr then
    match evaluateThreshold a b r.n_cell with
    | none => none
    | some th =>
      some { assoc := round5 r.assoc_mcp
             hetero := round5 r.hetero_mcp
             percent := percentOf r
             threshold := some th
             significancy := if ((percentOf r : ℚ) : ℝ) ≥ th then 1 else 0 }
  else
    some { assoc := round5 r.assoc_mcp
           hetero := round5 r.hetero_mcp
           percent := percentOf r
           threshold := none
           significancy := 0 }

/-- The per-(tissue, trait) loop over `d` (lines 148–175): every record is
evaluated into the full per-pair table (`trait_fdr_tissue`), and the records
passing `memberCond` are appended to `final_results`, the significant
subset.  The result is `(full table, significant subset)`; `none` when some
record raises. -/
noncomputable def evalLoop (a b : ℝ) :
    List GroupAssociationRecord →
      Option (List (GroupAssociationRecord × EvaluatedGroupRecord) ×
        List (GroupAssociationRecord × EvaluatedGroupRecord))
  | [] => some ([], [])
  | r :: rs =>
    match processRecord a b r, evalLoop a b rs with
    | some e, some (full, sig) =>
        some ((r, e) :: full, if memberCond r then (r, e) :: sig else sig)
    | _, _ => none

/-! ### Facts about the loop -/

/-- The significant subset is exactly the `memberCond` filter of the full
table. -/
lemma evalLoop_sig_filter (a b : ℝ) :
    ∀ rs full sig, evalLoop a b rs = some (full, sig) →
      sig = full.filter (fun p => memberCond p.1)
  | [], full, sig, h => by
      simp only [evalLoop, Option.some.injEq, Prod.mk.injEq] at h
      rw [← h.1, ← h.2]
      rfl
  | r :: rs, full, sig, h => by
      simp only [evalLoop] at h
      rcases hp : processRecord a b r with _ | e <;> rw [hp] at h
      · exact absurd h (by simp)
      rcases hl : evalLoop a b rs with _ | ⟨full', sig'⟩ <;> rw [hl] at h
      · exact absurd h (by simp)
      simp only [Option.some.injEq, Prod.mk.injEq] at h
      have ih := evalLoop_sig_filter a b rs full' sig' hl
      rw [← h.1, ← h.2, List.filter_cons]
      by_cases hm : memberCond r <;> simp [hm, ih]

/-- Every record of the full table that passes `memberCond` is in the
significant subset. -/
lemma evalLoop_mem_sig (a b : ℝ) (rs : List GroupAssociationRecord)
    (full sig : List (GroupAssociationRecord × EvaluatedGroupRecord))
    (h : evalLoop a b rs = some (full, sig))
    (p : GroupAssociationRecord × EvaluatedGroupRecord)
    (hp : p ∈ full) (hm : memberCond p.1 = true) : p ∈ sig := by
  rw [evalLoop_sig_filter a b rs full sig h]
  exact List.mem_filter.2 ⟨hp, by simp [hm]⟩

/-! ## The gene-set builder (`munge_gs`, scdrs_.py lines 270–488)

The model follows the p-value path: a loaded table has a gene index and one
column of optional (possibly missing) p-values per trait; the z-score path
feeds the same pipeline after `zsc2pval` and performs the identical
duplicate-index check. -/

/-- Option `--weight`: one of `zscore`, `uniform` (line 355). -/
inductive WeightOpt
  | zscore
  | uniform

/-- The gene-selection mode: `top` when both `--fdr` and `--fwer` are
`None` (select the top `n_max`), else the given FDR or FWER level. -/
inductive Selection
  | top
  | fdr (q : ℚ)
  | fwer (q : ℚ)

/-- The fatal errors `munge_gs` raises (lines 391–396 / 419–424 raise
`ValueError` carrying the comma-joined duplicated gene names). -/
inductive MungeError
  | duplicateGene (ids : List String)

/-- A loaded gene-statistic table: `index` is the first (gene) column,
`cols` the per-trait columns, positionally aligned with `index`; `none` is
a missing statistic (NaN). -/
structure StatTable where
  index : List String
  cols : List (String × List (Option ℚ))

/-- One trait's `(gene, p-value)` rows after `dropna` (lines 446–447). -/
def colGenes (tbl : StatTable) (t : String) : List (String × ℚ) :=
  match tbl.cols.lookup t with
  | some vs => (tbl.index.zip vs).filterMap (fun p => p.2.map (fun v => (p.1, v)))
  | none => []

/-- Bonferroni rejection count: statsmodels `multipletests(..., method
= "bonferroni")` rejects `p <= alpha / n` (lines 454–457). -/
def bonfCount (q : ℚ) (ps : List ℚ) : ℕ :=
  ps.countP (fun p => decide (p * ps.length ≤ q))

/-- Benjamini–Hochberg rejection count: statsmodels `fdr_bh` rejects the
first `k` sorted p-values where `k` is the largest index with
`p_(k) <= k·alpha/n` (lines 450–453). -/
def bhCount (q : ℚ) (ps : List ℚ) : ℕ :=
  let n := ps.length
  let sorted := ps.mergeSort (fun x y => decide (x ≤ y))
  (((List.range n).filter
      (fun i => decide (sorted.getD i 0 * n ≤ q * (i + 1)))).map (· + 1)).foldr
    max 0

/-- The count `n_gene` before clamping (lines 449–460). -/
def selectCount (sel : Selection) (n_max : ℕ) (ps : List ℚ) : ℕ :=
  match sel with
  | .top => n_max
  | .fdr q => bhCount q ps
  | .fwer q => bonfCount q ps

/-- The indices pandas `index[index.duplicated()]` reports: every
occurrence of a gene name that already appeared earlier (`seen`). -/
def dupIdsAux (seen : List String) : List String → List String
  | [] => []
  | x :: xs =>
    if x ∈ seen then x :: dupIdsAux seen xs else dupIdsAux (x :: seen) xs

/-- The duplicated gene names of an index, as the raised error joins them. -/
def dupIds (l : List String) : List String := dupIdsAux [] l

/-- Modelled from the spec: `scdrs.util.pval2zsc` (the scdrs library is not
part of this repository's files) converts a p-value to a one-sided z-score
via the inverse standard normal CDF, `-ppf(p)`.  `stdNormalCDF` is the
standard normal distribution function. -/
noncomputable def stdNormalCDF (x : ℝ) : ℝ :=
  (∫ t in Set.Iic x, Real.exp (-t ^ 2 / 2)) / Real.sqrt (2 * Real.pi)

/-- Modelled from the spec: the inverse-CDF z-score transform,
`pval2zsc p = -Φ⁻¹(p)`. -/
noncomputable def pval2zsc (p : ℝ) : ℝ :=
  -(Function.invFun stdNormalCDF p)

/-- Lines 444–481 for one trait: sort by ascending p-value, clamp the
selection count into `[n_min, n_max]` (`min` then `max`, lines 462–464),
take the `n_gene` smallest, clip the selected p-values at `1e-100` and
weight them (`pval2zsc(...).clip(max=10)` or uniform `1`). -/
noncomputable def traitGeneSet (w : WeightOpt) (sel : Selection)
    (n_min n_max : ℕ) (genes : List (String × ℚ)) : List (String × ℝ) :=
  let sorted := genes.mergeSort (fun g h => decide (g.2 ≤ h.2))
  let n_gene := max (min (selectCount sel n_max (genes.map Prod.snd)) n_max) n_min
  let selected := sorted.take n_gene
  let gene_list := selected.map Prod.fst
  let gene_pvals := selected.map (fun g => max g.2 (1 / 10 ^ 100))
  let gene_weights :=
    match w with
    | .zscore => gene_pvals.map (fun (p : ℚ) => min (pval2zsc (p : ℝ)) 10)
    | .uniform => gene_pvals.map (fun _ => (1 : ℝ))
  gene_list.zip gene_weights

/-- The builder `munge_gs`: pre-clamp `n_min = min(n_min, n_max)` (line 369), fail on a
non-unique gene index naming the duplicated genes (lines 391–396), then
build one gene set per trait in sorted trait order (line 439). -/
noncomputable def munge_gs (w : WeightOpt) (sel : Selection)
    (n_min n_max : ℕ) (tbl : StatTable) :
    Except MungeError (List (String × List (String × ℝ))) :=
  let n_min' := min n_min n_max
  if tbl.index.Nodup then
    Except.ok
      (((tbl.cols.map Prod.fst).mergeSort (fun s t => decide (s ≤ t))).map
        (fun t => (t, traitGeneSet w sel n_min' n_max (colGenes tbl t))))
  else Except.error (.duplicateGene (dupIds tbl.index))

/-! ### Facts about the builder -/

/-- The emitted gene set has `min (clamped n_gene) (#genes)` entries. -/
lemma traitGeneSet_length (w : WeightOpt) (sel : Selection)
    (n_min n_max : ℕ) (genes : List (String × ℚ)) :
    (traitGeneSet w sel n_min n_max genes).length =
      min (max (min (selectCount sel n_max (genes.map Prod.snd)) n_max) n_min)
        genes.length := by
  unfold traitGeneSet
  rcases w <;>
    simp only [List.length_zip, List.length_map, List.length_take,
      List.length_mergeSort] <;>
    omega

/-- The list `dupIdsAux seen l` holds exactly the genes that either repeat inside
`l` or occur in `l` having already been seen. -/
lemma mem_dupIdsAux (g : String) (l : List String) :
    ∀ seen, g ∈ dupIdsAux seen l ↔ (g ∈ seen ∧ g ∈ l) ∨ 2 ≤ l.count g := by
  induction l with
  | nil => intro seen; simp [dupIdsAux]
  | cons x xs ih =>
    intro seen
    have hmemcount : g ∈ xs ↔ 1 ≤ xs.count g := by
      rw [← List.count_pos_iff]
      omega
    by_cases hgx : g = x
    · subst hgx
      by_cases hx : g ∈ seen
      · simp only [dupIdsAux, if_pos hx]
        constructor
        · intro _
          exact Or.inl ⟨hx, List.mem_cons_self g xs⟩
        · intro _
          exact List.mem_cons_self g _
      · simp only [dupIdsAux, if_neg hx]
        rw [ih (g :: seen), List.count_cons_self]
        constructor
        · rintro (⟨_, h2⟩ | h3)
          · have := hmemcount.1 h2
            right
            omega
          · right
            omega
        · rintro (⟨h1, _⟩ | h3)
          · exact absurd h1 hx
          · exact Or.inl ⟨List.mem_cons_self g seen, hmemcount.2 (by omega)⟩
    · have hcnt : (x :: xs).count g = xs.count g := List.count_cons_of_ne hgx xs
      by_cases hx : x ∈ seen
      · simp only [dupIdsAux, if_pos hx]
        rw [hcnt]
        constructor
        · intro h
          rcases List.mem_cons.1 h with rfl | h'
          · exact absurd rfl hgx
          · rcases (ih seen).1 h' with ⟨h1, h2⟩ | h3
            · exact Or.inl ⟨h1, List.mem_cons_of_mem x h2⟩
            · exact Or.inr h3
        · rintro (⟨h1, h2⟩ | h3)
          · rcases List.mem_cons.1 h2 with rfl | h2'
            · exact absurd rfl hgx
            · exact List.mem_cons_of_mem x ((ih seen).2 (Or.inl ⟨h1, h2'⟩))
          · exact List.mem_cons_of_mem x ((ih seen).2 (Or.inr h3))
      · simp only [dupIdsAux, if_neg hx]
        rw [ih (x :: seen), hcnt]
        constructor
        · rintro (⟨h1, h2⟩ | h3)
          · rcases List.mem_cons.1 h1 with rfl | h1'
            · exact absurd rfl hgx
            · exact Or.inl ⟨h1', List.mem_cons_of_mem x h2⟩
          · exact Or.inr h3
        · rintro (⟨h1, h2⟩ | h3)
          · rcases List.mem_cons.1 h2 with rfl | h2'
            · exact absurd rfl hgx
            · exact Or.inl ⟨List.mem_cons_of_mem x h1, h2'⟩
          · exact Or.inr h3

/-- The raised error names exactly the genes occurring at least twice. -/
lemma mem_dupIds (l : List String) (g : String) :
    g ∈ dupIds l ↔ 2 ≤ l.count g := by
  rw [dupIds, mem_dupIdsAux]
  simp

/-- A non-unique index has at least one duplicated gene to report. -/
lemma dupIds_ne_nil (l : List String) (h : ¬ l.Nodup) : dupIds l ≠ [] := by
  rw [List.nodup_iff_count_le_one] at h
  push_neg at h
  obtain ⟨g, hg⟩ := h
  have : g ∈ dupIds l := (mem_dupIds l g).2 (by omega)
  intro hnil
  rw [hnil] at this
  exact absurd this (List.not_mem_nil g)

/-! ### The standard normal CDF -/

lemma gauss_fun_eq :
    (fun t : ℝ => Real.exp (-t ^ 2 / 2)) =
      fun t : ℝ => Real.exp (-(1 / 2 : ℝ) * t ^ 2) := by
  funext t
  ring_nf

lemma gauss_integrable :
    MeasureTheory.Integrable (fun t : ℝ => Real.exp (-t ^ 2 / 2)) := by
  rw [gauss_fun_eq]
  exact integrable_exp_neg_mul_sq (by norm_num)

lemma gauss_total :
    (∫ t : ℝ, Real.exp (-t ^ 2 / 2)) = Real.sqrt (2 * Real.pi) := by
  rw [gauss_fun_eq]
  rw [integral_gaussian]
  congr 1
  rw [div_div_eq_mul_div]
  ring

lemma gauss_symm :
    (∫ t in Set.Iic (0 : ℝ), Real.exp (-t ^ 2 / 2)) =
      ∫ t in Set.Ioi (0 : ℝ), Real.exp (-t ^ 2 / 2) := by
  have h := integral_comp_neg_Iic (0 : ℝ) (fun t => Real.exp (-t ^ 2 / 2))
  rw [neg_zero] at h
  have hfun : (fun t : ℝ => Real.exp (-(-t) ^ 2 / 2)) =
      fun t : ℝ => Real.exp (-t ^ 2 / 2) := by
    funext t
    rw [neg_sq]
  calc (∫ t in Set.Iic (0 : ℝ), Real.exp (-t ^ 2 / 2))
      = ∫ t in Set.Iic (0 : ℝ), Real.exp (-(-t) ^ 2 / 2) := by rw [hfun]
    _ = ∫ t in Set.Ioi (0 : ℝ), Real.exp (-t ^ 2 / 2) := h

lemma gauss_Iic_zero :
    (∫ t in Set.Iic (0 : ℝ), Real.exp (-t ^ 2 / 2)) =
      Real.sqrt (2 * Real.pi) / 2 := by
  have hIic : MeasureTheory.IntegrableOn
      (fun t : ℝ => Real.exp (-t ^ 2 / 2)) (Set.Iic 0) :=
    gauss_integrable.integrableOn
  have hIoi : MeasureTheory.IntegrableOn
      (fun t : ℝ => Real.exp (-t ^ 2 / 2)) (Set.Ioi 0) :=
    gauss_integrable.integrableOn
  have hsplit := intervalIntegral.integral_Iic_add_Ioi hIic hIoi
  rw [gauss_total] at hsplit
  rw [← gauss_symm] at hsplit
  linarith

/-- The standard normal CDF at `0` is `1/2`. -/
lemma stdNormalCDF_zero : stdNormalCDF 0 = 1 / 2 := by
  have hpi : 0 < Real.sqrt (2 * Real.pi) :=
    Real.sqrt_pos.2 (by positivity)
  unfold stdNormalCDF
  rw [gauss_Iic_zero]
  field_simp
  ring

/-- The standard normal CDF is strictly increasing. -/
lemma stdNormalCDF_strictMono : StrictMono stdNormalCDF := by
  intro x y hxy
  unfold stdNormalCDF
  have hpi : 0 < Real.sqrt (2 * Real.pi) :=
    Real.sqrt_pos.2 (by positivity)
  have hix : MeasureTheory.IntegrableOn
      (fun t : ℝ => Real.exp (-t ^ 2 / 2)) (Set.Iic x) :=
    gauss_integrable.integrableOn
  have hiy : MeasureTheory.IntegrableOn
      (fun t : ℝ => Real.exp (-t ^ 2 / 2)) (Set.Iic y) :=
    gauss_integrable.integrableOn
  have hdiff := intervalIntegral.integral_Iic_sub_Iic hix hiy
  have hpos : 0 < ∫ t in x..y, Real.exp (-t ^ 2 / 2) :=
    intervalIntegral.intervalIntegral_pos_of_pos
      gauss_integrable.intervalIntegrable
      (fun t => Real.exp_pos _) hxy
  rw [← hdiff] at hpos
  exact (div_lt_div_iff_of_pos_right hpi).2 (by linarith)

lemma stdNormalCDF_injective : Function.Injective stdNormalCDF :=
  stdNormalCDF_strictMono.injective

/-- The spec-modelled z-score transform sends `p = 1/2` to `0`. -/
lemma pval2zsc_half : pval2zsc (1 / 2) = 0 := by
  unfold pval2zsc
  rw [← stdNormalCDF_zero,
    Function.leftInverse_invFun stdNormalCDF_injective 0, neg_zero]

/-! ## Concrete instances used by the claims -/

/-- A record with `n_fdr_0.05 = 0` (else-branch of line 159). -/
def c5rec : GroupAssociationRecord := ⟨"t", "tr", "c", 7, 0, 0, 0⟩

/-- What the loop derives for `c5rec`: threshold cell left NaN. -/
def c5eval : EvaluatedGroupRecord := ⟨0, 0, 0, none, 0⟩

lemma processRecord_c5rec (a b : ℝ) : processRecord a b c5rec = some c5eval := by
  simp [processRecord, c5rec, c5eval, percentOf, round5, roundHalfEven]

/-- A record the evaluation loop keeps without incident. -/
def c1rec : GroupAssociationRecord := ⟨"t", "tr", "c", 2, 0, 0, 0⟩

def c1eval : EvaluatedGroupRecord := ⟨0, 0, 0, none, 0⟩

lemma evalLoop_c1rec :
    evalLoop 0 0 [c1rec] = some ([(c1rec, c1eval)], []) := by
  have hp : processRecord 0 0 c1rec = some c1eval := by
    simp [processRecord, c1rec, c1eval, percentOf, round5, roundHalfEven]
  have hm : memberCond c1rec = false := by
    simp [memberCond, c1rec]
  unfold evalLoop
  rw [hp]
  simp [evalLoop, hm]

/-- A record meeting all three membership conditions whose percentage is
below its threshold. -/
def c10rec : GroupAssociationRecord := ⟨"ts", "tr", "cell", 150, 1 / 100, 0, 1⟩

/-- What the loop derives for `c10rec`: `percent = 0.667`, threshold `5`,
significance `0`. -/
def c10eval : EvaluatedGroupRecord := ⟨1 / 100, 0, 667 / 1000, some 5, 0⟩

lemma evaluateThreshold_150 : evaluateThreshold a_fit b_fit 150 = some 5 := by
  unfold evaluateThreshold
  rw [if_neg (by norm_num : ¬ (150 : ℚ) = 1)]
  congr 1
  rw [show ((150 : ℚ) : ℝ) = 150 by norm_num, anchor_min]
  norm_num

lemma processRecord_c10rec :
    processRecord a_fit b_fit c10rec = some c10eval := by
  unfold processRecord
  rw [if_neg (by norm_num [c10rec] : ¬ c10rec.n_cell = 0),
    if_pos (by norm_num [c10rec] : (0 : ℚ) < c10rec.n_fdr)]
  rw [show c10rec.n_cell = (150 : ℚ) from rfl, evaluateThreshold_150]
  have hpc : percentOf c10rec = 667 / 1000 := by
    unfold percentOf c10rec
    norm_num [round5, roundHalfEven]
  simp only [hpc]
  rw [if_neg (by norm_num : ¬ ((667 / 1000 : ℚ) : ℝ) ≥ 5)]
  unfold c10eval c10rec
  norm_num [round5, roundHalfEven]

lemma memberCond_c10rec : memberCond c10rec = true := by
  norm_num [memberCond, c10rec]

lemma evalLoop_c10rec : evalLoop a_fit b_fit [c10rec] =
    some ([(c10rec, c10eval)], [(c10rec, c10eval)]) := by
  unfold evalLoop
  rw [processRecord_c10rec]
  simp [evalLoop, memberCond_c10rec]

/-- A record with `n_cell = 0` (line 152 divides by zero). -/
def c4zero : GroupAssociationRecord := ⟨"t", "tr", "c", 0, 0, 0, 5⟩

/-- A record whose cell ratio `1/3` is not 5-decimal exact. -/
def c4third : GroupAssociationRecord := ⟨"t", "tr", "c", 3, 0, 0, 1⟩

/-- A one-gene table (unique index) with p-value `1/2`. -/
def c2tbl : StatTable := ⟨["g1"], [("T", [some (1 / 2)])]⟩

lemma munge_c2tbl_ok : munge_gs .uniform .top 2 3 c2tbl =
    Except.ok [("T", [("g1", (1 : ℝ))])] := by
  simp [munge_gs, c2tbl, traitGeneSet, colGenes, selectCount, List.lookup,
    List.mergeSort]

/-- The same one-gene table, for the weight claim. -/
def c6tbl : StatTable := ⟨["g1"], [("T", [some (1 / 2)])]⟩

lemma munge_c6tbl_ok : munge_gs .zscore .top 1 1 c6tbl =
    Except.ok [("T", [("g1", (0 : ℝ))])] := by
  simp [munge_gs, c6tbl, traitGeneSet, colGenes, selectCount, List.lookup,
    List.mergeSort]
  rw [max_eq_left (by norm_num : ((10 : ℝ) ^ 100)⁻¹ ≤ 2⁻¹)]
  rw [show (2⁻¹ : ℝ) = 1 / 2 by norm_num, pval2zsc_half]
  norm_num

/-- A table with gene `a` appearing twice in the index. -/
def c8tbl : StatTable := ⟨["a", "b", "a"], [("T", [some 1, some 1, some 1])]⟩

lemma evaluateThreshold_zero :
    evaluateThreshold a_fit b_fit 0 = some 0.005 := by
  unfold evaluateThreshold
  rw [if_neg (by norm_num : ¬ (0 : ℚ) = 1)]
  congr 1
  rw [show ((0 : ℚ) : ℝ) = 0 by norm_num, Real.logb_zero, div_zero, add_zero]
  rw [max_eq_right]
  have := a_fit_neg
  norm_num
  linarith

/-! ## The claims -/

/-- C1: a record processed by the evaluation loop is added to the
significant subset (`final_results`) iff `n_cell >= 150`,
`assoc_mcp <= 0.05` and `n_fdr_0.05 > 0` hold together; the membership
test reads no other field of the record. -/
theorem C1_significant_subset_membership (a b : ℝ)
    (rs : List GroupAssociationRecord)
    (full sig : List (GroupAssociationRecord × EvaluatedGroupRecord))
    (h : evalLoop a b rs = some (full, sig)) :
    sig = full.filter (fun p => memberCond p.1) ∧
    (∀ r : GroupAssociationRecord, memberCond r = true ↔
      (150 ≤ r.n_cell ∧ r.assoc_mcp ≤ 0.05 ∧ 0 < r.n_fdr)) ∧
    (∀ r r' : GroupAssociationRecord, r.n_cell = r'.n_cell →
      r.assoc_mcp = r'.assoc_mcp → r.n_fdr = r'.n_fdr →
      memberCond r = memberCond r') := by
  refine ⟨evalLoop_sig_filter a b rs full sig h, ?_, ?_⟩
  · intro r
    simp [memberCond, and_assoc]
  · intro r r' h1 h2 h3
    unfold memberCond
    rw [h1, h2, h3]

/-- C1, instantiated: a one-record run whose record fails the test has an
empty significant subset. -/
theorem C1_witness :
    ([] : List (GroupAssociationRecord × EvaluatedGroupRecord)) =
      [(c1rec, c1eval)].filter (fun p => memberCond p.1) ∧
    (memberCond c1rec = true ↔
      (150 ≤ c1rec.n_cell ∧ c1rec.assoc_mcp ≤ 0.05 ∧ 0 < c1rec.n_fdr)) := by
  obtain ⟨h1, h2, _⟩ := C1_significant_subset_membership 0 0 [c1rec]
    [(c1rec, c1eval)] [] evalLoop_c1rec
  exact ⟨h1, h2 c1rec⟩

/-- C2 counterexample: a unique-index table with a single gene, under
`n_min = 2 ≤ n_max = 3`, yields a gene set of size `1 < n_min`: the lower
bound of the claimed size invariant fails when a trait has fewer genes
than `n_min`. -/
theorem C2_size_counterexample :
    c2tbl.index.Nodup ∧ (2 : ℕ) ≤ 3 ∧
    munge_gs .uniform .top 2 3 c2tbl =
      Except.ok [("T", [("g1", (1 : ℝ))])] ∧
    ¬ (2 ≤ ([("g1", (1 : ℝ))] : List (String × ℝ)).length) := by
  refine ⟨by decide, by norm_num, munge_c2tbl_ok, by simp⟩

/-- C2 amended: with `n_min` pre-clamped below `n_max`, every emitted gene
set has at most `n_max` genes, and at least `n_min` genes whenever the
trait has at least `n_min` genes with a non-missing statistic. -/
theorem C2_size_clamped (w : WeightOpt) (sel : Selection)
    (n_min n_max : ℕ) (tbl : StatTable)
    (out : List (String × List (String × ℝ)))
    (hmm : n_min ≤ n_max) (hnd : tbl.index.Nodup)
    (hok : munge_gs w sel n_min n_max tbl = Except.ok out) :
    ∀ t gs, (t, gs) ∈ out → gs.length ≤ n_max ∧
      (n_min ≤ (colGenes tbl t).length → n_min ≤ gs.length) := by
  unfold munge_gs at hok
  rw [if_pos hnd] at hok
  injection hok with hok
  intro t gs hmem
  rw [← hok] at hmem
  rcases List.mem_map.1 hmem with ⟨t', _, heq⟩
  rw [Prod.mk.injEq] at heq
  obtain ⟨rfl, hgs⟩ := heq
  rw [← hgs, traitGeneSet_length]
  constructor
  · omega
  · intro hlen
    omega

/-- C2 amended, instantiated at the one-gene table. -/
theorem C2_size_clamped_witness :
    ([("g1", (1 : ℝ))] : List (String × ℝ)).length ≤ 3 ∧
      (2 ≤ (colGenes c2tbl "T").length →
        2 ≤ ([("g1", (1 : ℝ))] : List (String × ℝ)).length) :=
  C2_size_clamped .uniform .top 2 3 c2tbl [("T", [("g1", (1 : ℝ))])]
    (by norm_num) (by decide) munge_c2tbl_ok "T" [("g1", (1 : ℝ))]
    (by simp)

/-- C3: the fitted curve reproduces the two anchors exactly —
`a + b/log10(150) = 5` and `a + b/log10(150·1000) = 5/1000` — and the full
evaluation (with its floor) at `n = 150` is `5`. -/
theorem C3_fit_reproduces_anchors :
    a_fit + b_fit / Real.logb 10 150 = 5 ∧
    a_fit + b_fit / Real.logb 10 (150 * 1000) = 5 / 1000 ∧
    thresholdEval a_fit b_fit 150 = 5 := by
  refine ⟨anchor_min, ?_, thresholdEval_at_150⟩
  rw [show (150 : ℝ) * 1000 = 150000 by norm_num]
  exact anchor_max

/-- C4 counterexample: at `n_cell = 0` the loop raises `ZeroDivisionError`
instead of reporting `0`, and at `n_cell = 3, n_fdr = 1` the reported
percentage is `100·round5(1/3) = 33.333`, not `100·(1/3)`. -/
theorem C4_percent_counterexample :
    processRecord 0 0 c4zero = none ∧
    percentOf c4third = 33333 / 1000 ∧
    (33333 / 1000 : ℚ) ≠ 100 * (c4third.n_fdr / c4third.n_cell) := by
  refine ⟨by simp [processRecord, c4zero], ?_, by norm_num [c4third]⟩
  unfold percentOf c4third
  norm_num [round5, roundHalfEven]

/-- C4 amended: for `n_cell ≠ 0` the reported percentage is
`100·round5(n_fdr/n_cell)`, within `1/2000` of `100·n_fdr/n_cell`; at
`n_cell = 0` the computation fails (the record is not evaluated). -/
theorem C4_percent_amended :
    (∀ r : GroupAssociationRecord,
      percentOf r = round5 (r.n_fdr / r.n_cell) * 100 ∧
      |percentOf r - 100 * (r.n_fdr / r.n_cell)| ≤ 1 / 2000) ∧
    (∀ (a b : ℝ) (r : GroupAssociationRecord), r.n_cell = 0 →
      processRecord a b r = none) := by
  constructor
  · intro r
    refine ⟨rfl, ?_⟩
    have h := round5_dist (r.n_fdr / r.n_cell)
    unfold percentOf
    have heq : round5 (r.n_fdr / r.n_cell) * 100 - 100 * (r.n_fdr / r.n_cell)
        = (round5 (r.n_fdr / r.n_cell) - r.n_fdr / r.n_cell) * 100 := by
      ring
    rw [heq, abs_mul, show |(100 : ℚ)| = 100 by norm_num]
    calc |round5 (r.n_fdr / r.n_cell) - r.n_fdr / r.n_cell| * 100
        ≤ 1 / 200000 * 100 :=
          mul_le_mul_of_nonneg_right h (by norm_num)
      _ = 1 / 2000 := by norm_num
  · intro a b r hr
    unfold processRecord
    rw [if_pos hr]

/-- C4 amended, instantiated at `n_cell = 3, n_fdr = 1` and at the
zero-cell record. -/
theorem C4_percent_witness :
    |percentOf c4third - 100 * (c4third.n_fdr / c4third.n_cell)| ≤ 1 / 2000 ∧
    processRecord 0 0 c4zero = none :=
  ⟨(C4_percent_amended.1 c4third).2,
   C4_percent_amended.2 0 0 c4zero rfl⟩

/-- C5 counterexample: a record with `n_fdr_0.05 = 0` leaves the threshold
cell unset (NaN), which the claim's `threshold = 0` does not match. -/
theorem C5_threshold_counterexample :
    processRecord a_fit b_fit c5rec = some c5eval ∧
    c5eval.threshold = none ∧ (none : Option ℝ) ≠ some 0 := by
  exact ⟨processRecord_c5rec a_fit b_fit, rfl, by simp⟩

/-- C5 amended: a record with `n_fdr_0.05 = 0` yields an unset (NaN)
threshold, significance `0`, and is excluded from the significant subset
regardless of all other fields. -/
theorem C5_zero_fdr_amended (a b : ℝ) (r : GroupAssociationRecord)
    (e : EvaluatedGroupRecord) (hfdr : r.n_fdr = 0)
    (h : processRecord a b r = some e) :
    e.threshold = none ∧ e.significancy = 0 ∧ memberCond r = false := by
  have hlt : ¬ (0 : ℚ) < r.n_fdr := by
    rw [hfdr]
    exact lt_irrefl 0
  unfold processRecord at h
  by_cases hc : r.n_cell = 0
  · rw [if_pos hc] at h
    exact absurd h (by simp)
  · rw [if_neg hc, if_neg hlt] at h
    injection h with h
    refine ⟨by rw [← h], by rw [← h], ?_⟩
    simp [memberCond, hfdr]

/-- C5 amended, instantiated. -/
theorem C5_zero_fdr_witness :
    c5eval.threshold = none ∧ c5eval.significancy = 0 ∧
      memberCond c5rec = false :=
  C5_zero_fdr_amended 0 0 c5rec c5eval rfl (processRecord_c5rec 0 0)

/-- C6 counterexample: with `weight_opt = zscore`, a selected gene with
p-value `1/2` receives weight `Φ⁻¹(1/2) = 0`, which is not in `(0, 10]`:
the claimed strict positivity fails. -/
theorem C6_weight_counterexample :
    munge_gs .zscore .top 1 1 c6tbl =
      Except.ok [("T", [("g1", (0 : ℝ))])] ∧
    ¬ (0 < (0 : ℝ)) :=
  ⟨munge_c6tbl_ok, lt_irrefl 0⟩

/-- C6 amended: with `weight_opt = zscore` every emitted weight is at most
`10` (the `clip(max=10)`); weights need not be positive. -/
theorem C6_weight_le_ten (sel : Selection) (n_min n_max : ℕ)
    (tbl : StatTable) (out : List (String × List (String × ℝ)))
    (hok : munge_gs .zscore sel n_min n_max tbl = Except.ok out) :
    ∀ t gs, (t, gs) ∈ out → ∀ g wt, (g, wt) ∈ gs → wt ≤ 10 := by
  unfold munge_gs at hok
  split at hok
  · injection hok with hok
    intro t gs hmem g wt hw
    rw [← hok] at hmem
    rcases List.mem_map.1 hmem with ⟨t', _, heq⟩
    rw [Prod.mk.injEq] at heq
    obtain ⟨rfl, hgs⟩ := heq
    rw [← hgs] at hw
    unfold traitGeneSet at hw
    have := (List.of_mem_zip hw).2
    rcases List.mem_map.1 this with ⟨p, _, hwt⟩
    rw [← hwt]
    exact min_le_right _ _
  · exact absurd hok (by simp)

/-- C6 amended, instantiated: the weight `0` emitted for `p = 1/2` is at
most `10`. -/
theorem C6_weight_witness : (0 : ℝ) ≤ 10 :=
  C6_weight_le_ten .top 1 1 c6tbl [("T", [("g1", (0 : ℝ))])]
    munge_c6tbl_ok "T" [("g1", (0 : ℝ))] (by simp) "g1" 0 (by simp)

/-- C7: the fitted threshold evaluation is monotonically non-increasing in
`n_cell` on all of `(1, ∞)` — below and above the point where the `0.005`
floor takes over. -/
theorem C7_threshold_monotone (x y : ℝ) (hx : 1 < x) (hxy : x ≤ y) :
    thresholdEval a_fit b_fit y ≤ thresholdEval a_fit b_fit x :=
  thresholdEval_anti hx hxy

/-- C7, instantiated at `200 ≤ 1000`. -/
theorem C7_threshold_monotone_witness :
    thresholdEval a_fit b_fit 1000 ≤ thresholdEval a_fit b_fit 200 :=
  C7_threshold_monotone 200 1000 (by norm_num) (by norm_num)

/-- C8: a table with a duplicated gene identifier makes `munge_gs` fail
with the duplicate-gene error naming exactly the genes occurring at least
twice (at least one is named); no gene set is built. -/
theorem C8_duplicate_gene_error (w : WeightOpt) (sel : Selection)
    (n_min n_max : ℕ) (tbl : StatTable) (h : ¬ tbl.index.Nodup) :
    munge_gs w sel n_min n_max tbl =
      Except.error (.duplicateGene (dupIds tbl.index)) ∧
    dupIds tbl.index ≠ [] ∧
    (∀ g, g ∈ dupIds tbl.index ↔ 2 ≤ tbl.index.count g) := by
  refine ⟨?_, dupIds_ne_nil tbl.index h, fun g => mem_dupIds tbl.index g⟩
  unfold munge_gs
  rw [if_neg h]

/-- C8, instantiated at a table whose index repeats `a`. -/
theorem C8_duplicate_gene_witness :
    munge_gs .uniform .top 1 2 c8tbl =
      Except.error (.duplicateGene (dupIds c8tbl.index)) ∧
    (("a" : String) ∈ dupIds c8tbl.index ↔ 2 ≤ c8tbl.index.count "a") :=
  ⟨(C8_duplicate_gene_error .uniform .top 1 2 c8tbl (by decide)).1,
   (C8_duplicate_gene_error .uniform .top 1 2 c8tbl (by decide)).2.2 "a"⟩

/-- C9 counterexample: the threshold evaluation of line 154 is unguarded:
at `n_cell = 0` — inside the region `n_cell ≤ 1` where the claim says it
fails — it succeeds and returns the floor `0.005` (numpy's
`log10(0) = -inf` makes `b/log10(0) = 0`, leaving `max(a, 0.005)`). -/
theorem C9_evaluate_at_zero_succeeds :
    evaluateThreshold a_fit b_fit 0 = some 0.005 ∧ (0 : ℚ) ≤ 1 :=
  ⟨evaluateThreshold_zero, by norm_num⟩

/-- C9 amended: the code has no `DegenerateModelError` or
`InvalidInputError`.  Its fit is the hardcoded non-degenerate
`(150, 5, 1000)` solve, which always succeeds (witnessed by the nonzero
slope); the threshold evaluation fails only at `n_cell = 1` (division by
`log10(1) = 0`) and succeeds everywhere else, including `n_cell = 0`. -/
theorem C9_evaluate_amended :
    (∀ n : ℚ, evaluateThreshold a_fit b_fit n = none ↔ n = 1) ∧
    evaluateThreshold a_fit b_fit 0 = some 0.005 ∧ 0 < b_fit := by
  refine ⟨?_, evaluateThreshold_zero, b_fit_pos⟩
  intro n
  unfold evaluateThreshold
  by_cases hn : n = 1
  · rw [if_pos hn]
    simp [hn]
  · rw [if_neg hn]
    simp [hn]

/-- C9 amended, instantiated at `n_cell = 1` and `n_cell = 0`. -/
theorem C9_evaluate_witness :
    (evaluateThreshold a_fit b_fit 1 = none ↔ (1 : ℚ) = 1) ∧
    evaluateThreshold a_fit b_fit 0 = some 0.005 :=
  ⟨C9_evaluate_amended.1 1, C9_evaluate_amended.2.1⟩

/-- C10: membership in the significant subset ignores the significance
flag — every full-table record meeting the three conditions is in the
subset — and a concrete run puts a record with `significancy = 0`
(percentage `0.667` below threshold `5`) into the persisted subset. -/
theorem C10_subset_ignores_significance :
    (∀ (a b : ℝ) (rs : List GroupAssociationRecord)
      (full sig : List (GroupAssociationRecord × EvaluatedGroupRecord)),
      evalLoop a b rs = some (full, sig) →
      ∀ p, p ∈ full → memberCond p.1 = true → p ∈ sig) ∧
    (evalLoop a_fit b_fit [c10rec] =
        some ([(c10rec, c10eval)], [(c10rec, c10eval)]) ∧
      c10eval.significancy = 0 ∧ memberCond c10rec = true) :=
  ⟨fun a b rs full sig h p hp hm => evalLoop_mem_sig a b rs full sig h p hp hm,
   evalLoop_c10rec, rfl, memberCond_c10rec⟩

/-- C10, instantiated: the not-significant record is in the subset. -/
theorem C10_subset_witness :
    (c10rec, c10eval) ∈ [(c10rec, c10eval)] :=
  C10_subset_ignores_significance.1 a_fit b_fit [c10rec]
    [(c10rec, c10eval)] [(c10rec, c10eval)]
    C10_subset_ignores_significance.2.1 (c10rec, c10eval)
    (by simp) C10_subset_ignores_significance.2.2.2

end WESscDRS
